import Mathlib

/-!
Verification of `langchain_community/chat_models/zhipuai.py` (the ChatZhipuAI
adapter).  Python dictionaries are embedded as ordered association lists over a
JSON-like value type `PVal`; Python `None` is `PVal.null`; fallible operations
(`d["k"]`, `raise ValueError`, ...) return `Except ZError`.
-/

/-- A Python/JSON-like value: `None`, booleans, integers, rationals (for the
float-valued sampling parameters), strings, lists and string-keyed dicts. -/
inductive PVal where
  | null
  | bool (b : Bool)
  | num (n : Int)
  | rat (q : Rat)
  | str (s : String)
  | list (xs : List PVal)
  | dict (d : List (String × PVal))

/-- An ordered string-keyed dictionary, the shape of every Python dict the
adapter builds or consumes. -/
abbrev Dict := List (String × PVal)

/-- `d[k]` as a partial lookup: the value at the first (unique) occurrence of
key `k`. -/
def Dict.get? : Dict → String → Option PVal
  | [], _ => none
  | (k', v) :: rest, k => if k' = k then some v else Dict.get? rest k

/-- `k in d`. -/
def Dict.member (d : Dict) (k : String) : Bool :=
  (Dict.get? d k).isSome

/-- `d[k] = v`: replace the value at `k` in place if present, else append. -/
def Dict.insert : Dict → String → PVal → Dict
  | [], k, v => [(k, v)]
  | (k', v') :: rest, k, v =>
      if k' = k then (k', v) :: rest else (k', v') :: Dict.insert rest k v

/-- `d.get(k)`: total lookup returning the Python `None` object when the key
is absent. -/
def Dict.pyGet (d : Dict) (k : String) : PVal :=
  (Dict.get? d k).getD PVal.null

/-- `\x7b**a, **b\x7d`: right-biased merge of two dicts, keeping `a`'s key order. -/
def Dict.mergeRight (a b : Dict) : Dict :=
  b.foldl (fun acc p => Dict.insert acc p.1 p.2) a

/-- Python truthiness of a value. -/
def pyTruthy : PVal → Bool
  | .null => false
  | .bool b => b
  | .num n => n != 0
  | .rat q => q != 0
  | .str s => s != ""
  | .list xs => !xs.isEmpty
  | .dict d => !d.isEmpty

/-- `v == "s"` for a Python value against a string literal. -/
def PVal.isStr : PVal → String → Bool
  | .str t, s => t = s
  | _, _ => false

/-- The exceptions the adapter's code paths can raise. -/
inductive ZError where
  | keyError (k : String)
  | typeError (s : String)
  | valueError (s : String)
  | indexError
deriving DecidableEq

/-- The configuration fields of `ChatZhipuAI` that the translated code paths
read (defaults as in the source). -/
structure Config where
  model_name : String := "glm-4"
  temperature : Rat := 0.95
  top_p : Rat := 0.7
  max_tokens : Option Int := none
  max_retries : Nat := 1
  streaming : Bool := false
deriving DecidableEq

/-- The closed set of message-chunk classes the conversion cascade can pick
(`HumanMessageChunk`, `AIMessageChunk`, `SystemMessageChunk`,
`FunctionMessageChunk`, `ToolMessageChunk`, `ChatMessageChunk`). -/
inductive ChunkClass where
  | human
  | ai
  | system
  | function
  | tool
  | chat
deriving DecidableEq

/-- A message (or message chunk) of one of the six role variants; `content`
and the side fields carry raw Python values. -/
inductive BaseMsg where
  | human (content : PVal)
  | ai (content : PVal) (additional_kwargs : Dict)
  | system (content : PVal)
  | function (content : PVal) (name : PVal)
  | tool (content : PVal) (tool_call_id : PVal)
  | chat (content : PVal) (role : PVal)

/-- `m.__class__`. -/
def BaseMsg.classOf : BaseMsg → ChunkClass
  | .human _ => .human
  | .ai _ _ => .ai
  | .system _ => .system
  | .function _ _ => .function
  | .tool _ _ => .tool
  | .chat _ _ => .chat

/-- `m.content`. -/
def BaseMsg.contentOf : BaseMsg → PVal
  | .human c => c
  | .ai c _ => c
  | .system c => c
  | .function c _ => c
  | .tool c _ => c
  | .chat c _ => c

/-- The branch cascade of `_convert_delta_to_message_chunk` (zhipuai.py
lines 438-451), as a choice of class: each branch fires on `role == <r>` or
`default_class == <C>`, in the source's fixed order; the final defensive
`else` returns the default class (unreachable for the six known classes). -/
def selectClass (role : PVal) (dc : ChunkClass) : ChunkClass :=
  if role.isStr "user" || dc == .human then .human
  else if role.isStr "assistant" || dc == .ai then .ai
  else if role.isStr "system" || dc == .system then .system
  else if role.isStr "function" || dc == .function then .function
  else if role.isStr "tool" || dc == .tool then .tool
  else if pyTruthy role || dc == .chat then .chat
  else dc

/-- The `additional_kwargs` assembly of `_convert_delta_to_message_chunk`
(lines 429-436): a truthy `function_call` is copied with a `None` name
replaced by `""`; a truthy `tool_calls` is copied verbatim. -/
def buildAdditionalKwargs (d : Dict) : Except ZError Dict :=
  let step1 : Except ZError Dict :=
    if pyTruthy (Dict.pyGet d "function_call") then
      match Dict.pyGet d "function_call" with
      | .dict fc =>
          let fc' := match Dict.get? fc "name" with
                     | some .null => Dict.insert fc "name" (.str "")
                     | _ => fc
          .ok (Dict.insert [] "function_call" (.dict fc'))
      | _ => .error (ZError.typeError "function_call is not a mapping")
    else .ok []
  match step1 with
  | .error e => .error e
  | .ok ak1 =>
      if pyTruthy (Dict.pyGet d "tool_calls") then
        .ok (Dict.insert ak1 "tool_calls" (Dict.pyGet d "tool_calls"))
      else .ok ak1

/-- `_dict.get("content") or ""`: the delta's content with a falsy value
(absent, `None` or `""`) replaced by the empty string. -/
def contentV (d : Dict) : PVal :=
  if pyTruthy (Dict.pyGet d "content") then Dict.pyGet d "content"
  else .str ""

/-- `_convert_delta_to_message_chunk(_dict, default_class)` (lines 424-451):
content defaults to `""` when falsy, `additional_kwargs` is assembled, then
the class cascade selects the variant; the function and tool variants look up
the required `"name"` / `"tool_call_id"` keys (a `KeyError` when absent). -/
def convertDeltaToMessageChunk (d : Dict) (dc : ChunkClass) :
    Except ZError BaseMsg :=
  match buildAdditionalKwargs d with
  | .error e => .error e
  | .ok ak =>
    match selectClass (Dict.pyGet d "role") dc with
    | .human => .ok (.human (contentV d))
    | .ai => .ok (.ai (contentV d) ak)
    | .system => .ok (.system (contentV d))
    | .function =>
        match Dict.get? d "name" with
        | some v => .ok (.function (contentV d) v)
        | none => .error (ZError.keyError "name")
    | .tool =>
        match Dict.get? d "tool_call_id" with
        | some v => .ok (.tool (contentV d) v)
        | none => .error (ZError.keyError "tool_call_id")
    | .chat => .ok (.chat (contentV d) (Dict.pyGet d "role"))

example : convertDeltaToMessageChunk [("role", .str "user"), ("content", .str "hi")] .ai
    = .ok (.human (.str "hi")) := rfl

example : convertDeltaToMessageChunk [("role", .str "system")] .human
    = .ok (.human (.str "")) := rfl

/-- A `ChatGenerationChunk` / `ChatGeneration`: a message plus optional
generation metadata. -/
structure GenChunk where
  message : BaseMsg
  generation_info : Option Dict

/-- A `ChatResult`: a list of generations plus optional `llm_output`. -/
structure ChatResult where
  generations : List GenChunk
  llm_output : Option Dict

/-- `choice.get("finish_reason")` stored a non-`None` value. -/
def notNull : PVal → Bool
  | .null => false
  | _ => true

/-- One iteration of the `_stream` loop body (lines 388-402) on a raw frame:
a frame whose `"choices"` list is empty is skipped (`continue`), otherwise the
first choice's delta is converted with the carried default class, generation
metadata is attached when a finish reason is present (copying the frame-level
`"usage"`), and the carried class becomes the produced chunk's class. -/
def streamFrame (dc : ChunkClass) (frame : Dict) :
    Except ZError (Option GenChunk × ChunkClass) :=
  match Dict.get? frame "choices" with
  | none => .error (ZError.keyError "choices")
  | some (.list []) => .ok (none, dc)
  | some (.list (c :: _)) =>
    (match c with
     | .dict choice =>
       (match Dict.get? choice "delta" with
        | some (.dict delta) =>
          (match convertDeltaToMessageChunk delta dc with
           | .ok msg =>
             let fr := Dict.pyGet choice "finish_reason"
             let gi : Option Dict :=
               if notNull fr
               then some [("finish_reason", fr),
                          ("token_usage", Dict.pyGet frame "usage")]
               else none
             .ok (some ⟨msg, gi⟩, msg.classOf)
           | .error e => .error e)
        | some _ => .error (ZError.typeError "delta is not a mapping")
        | none => .error (ZError.keyError "delta"))
     | _ => .error (ZError.typeError "choice is not a mapping"))
  | some _ => .error (ZError.typeError "choices is not a list")

/-- The chunk sequence `_stream` emits over a list of raw frames, starting
from the carried default class (`AIMessageChunk` at line 387). -/
def streamChunks (dc : ChunkClass) : List Dict → Except ZError (List GenChunk)
  | [] => .ok []
  | f :: fs =>
    match streamFrame dc f with
    | .error e => .error e
    | .ok (oc, dc') =>
      match streamChunks dc' fs with
      | .error e => .error e
      | .ok rest =>
        match oc with
        | some c => .ok (c :: rest)
        | none => .ok rest

/-- `chunk.text`: the chunk message's content. -/
def GenChunk.textOf (c : GenChunk) : PVal :=
  c.message.contentOf

/-- An observable action of the `_stream` generator body: yielding a chunk to
the consumer, or notifying the run manager via `on_llm_new_token`. -/
inductive Event where
  | yieldChunk (c : GenChunk)
  | notify (t : PVal) (c : GenChunk)

/-- The ordered trace of observable actions of `_stream` (lines 403-405): for
each produced chunk the generator yields it, and then, when a run manager is
present, reports it to `on_llm_new_token`. -/
def streamEvents (rm : Bool) (dc : ChunkClass) :
    List Dict → Except ZError (List Event)
  | [] => .ok []
  | f :: fs =>
    match streamFrame dc f with
    | .error e => .error e
    | .ok (oc, dc') =>
      match streamEvents rm dc' fs with
      | .error e => .error e
      | .ok rest =>
        match oc with
        | some c =>
            .ok ((Event.yieldChunk c ::
                  if rm then [Event.notify c.textOf c] else []) ++ rest)
        | none => .ok rest

/-- String concatenation of streamed contents (non-string contents are kept
as the left operand, mirroring that only string contents concatenate). -/
def pconcat : PVal → PVal → PVal
  | .str a, .str b => .str (a ++ b)
  | a, _ => a

/-- `m` with its content replaced. -/
def BaseMsg.withContent : BaseMsg → PVal → BaseMsg
  | .human _, v => .human v
  | .ai _ ak, v => .ai v ak
  | .system _, v => .system v
  | .function _ n, v => .function v n
  | .tool _ t, v => .tool v t
  | .chat _ r, v => .chat v r

/-- The first chunk's message carrying the in-order concatenation of all the
chunks' contents. -/
def foldedMessage (c : GenChunk) (cs : List GenChunk) : BaseMsg :=
  c.message.withContent
    ((c :: cs).foldl (fun a ch => pconcat a ch.message.contentOf) (.str ""))

/-- Modelled from the spec: `generate_from_stream` (langchain_core, not under
src/) folds a chunk sequence into a single-generation `ChatResult`,
concatenating message content in order and taking generation metadata only
from the terminal chunk; the fold itself leaves the result-level output
metadata empty, and an empty stream is an error. -/
def generateFromStream (chunks : List GenChunk) : Except ZError ChatResult :=
  match chunks with
  | [] => .error (ZError.valueError "No generations found in stream.")
  | c :: cs =>
      .ok ⟨[⟨foldedMessage c cs, ((c :: cs).getLast (by simp)).generation_info⟩],
           none⟩

/-- The streaming branch of `_generate` (lines 268-277): stream the frames,
fold the chunks into a result, then backfill `llm_output` from the last
generation's metadata (its `token_usage` entry) and the configured model name
whenever that metadata is truthy. -/
def generateStreaming (cfg : Config) (frames : List Dict) :
    Except ZError ChatResult :=
  match streamChunks .ai frames with
  | .error e => .error e
  | .ok chunks =>
    match generateFromStream chunks with
    | .error e => .error e
    | .ok res =>
      match res.generations.getLast? with
      | none => .error ZError.indexError
      | some fm =>
        match fm.generation_info with
        | some info =>
            .ok ⟨res.generations,
                 some [("token_usage", Dict.pyGet info "token_usage"),
                       ("model_name", .str cfg.model_name)]⟩
        | none => .ok res

/-- `_default_params` (lines 182-193): model, stream flag, temperature and
top_p, plus `max_tokens` when configured. -/
def defaultParams (cfg : Config) : Dict :=
  let params : Dict :=
    [("model", .str cfg.model_name), ("stream", .bool cfg.streaming),
     ("temperature", .rat cfg.temperature), ("top_p", .rat cfg.top_p)]
  match cfg.max_tokens with
  | some m => Dict.insert params "max_tokens" (.num m)
  | none => params

/-- Modelled from the spec: `convert_message_to_dict`
(langchain_community.adapters.openai, not under src/) maps a generic chat
message to a provider dict preserving role, content and the function/tool
side fields. -/
def convertMessageToDict : BaseMsg → Dict
  | .human c => [("role", .str "user"), ("content", c)]
  | .ai c ak => [("role", .str "assistant"), ("content", c)] ++ ak
  | .system c => [("role", .str "system"), ("content", c)]
  | .function c n => [("role", .str "function"), ("content", c), ("name", n)]
  | .tool c t => [("role", .str "tool"), ("content", c), ("tool_call_id", t)]
  | .chat c r => [("role", r), ("content", c)]

/-- The body of `_create_message_dicts` (lines 291-297) over the parameter
dict it received from `_default_params`: a non-`None` stop argument is
rejected when the parameters already define `"stop"`, and attached otherwise;
messages are serialized positionally. -/
def createMessageDictsWith (params : Dict) (messages : List BaseMsg)
    (stop : Option (List String)) : Except ZError (List Dict × Dict) :=
  match stop with
  | none => .ok (messages.map convertMessageToDict, params)
  | some s =>
      if Dict.member params "stop" then
        .error (ZError.valueError "`stop` found in both the input and default params.")
      else
        .ok (messages.map convertMessageToDict,
             Dict.insert params "stop" (.list (s.map .str)))

/-- `_create_message_dicts(messages, stop)` (lines 288-297). -/
def createMessageDicts (cfg : Config) (messages : List BaseMsg)
    (stop : Option (List String)) : Except ZError (List Dict × Dict) :=
  createMessageDictsWith (defaultParams cfg) messages stop

/-- The stop truncation of `_generate` (lines 264-267): a stop list with more
than one entry is cut to its first element. -/
def truncateStop : Option (List String) → Option (List String)
  | some (a :: _ :: _) => some [a]
  | other => other

/-- The parameters of the non-streaming branch of `_generate` (lines 263-285)
as handed to `completion_with_retry`: the (possibly truncated) stop is
attached via `_create_message_dicts`, then a per-call stream override and the
extra keyword arguments are merged on top. -/
def generateOutbound (cfg : Config) (messages : List BaseMsg)
    (stop : Option (List String)) (stream : Option Bool) (kwargs : Dict) :
    Except ZError (List Dict × Dict) := do
  let (dicts, params) ← createMessageDicts cfg messages (truncateStop stop)
  let params := Dict.mergeRight params
    (match stream with | some b => [("stream", .bool b)] | none => [])
  pure (dicts, Dict.mergeRight params kwargs)

/-- Modelled from the spec: `convert_dict_to_message`
(langchain_community.adapters.openai, not under src/) selects the message
variant from the role field exactly as the streaming rule does, without the
carryover state. -/
def convertDictToMessage (d : Dict) : BaseMsg :=
  let role := Dict.pyGet d "role"
  let content := Dict.pyGet d "content"
  if role.isStr "user" then .human content
  else if role.isStr "assistant" then .ai content []
  else if role.isStr "system" then .system content
  else if role.isStr "function" then .function content (Dict.pyGet d "name")
  else if role.isStr "tool" then .tool content (Dict.pyGet d "tool_call_id")
  else .chat content role

/-- `_create_chat_result(response)` (lines 299-318): one generation per entry
of `response["choices"]` (a `KeyError` when the key is absent), each with
that entry's finish reason as generation metadata, and `llm_output` built
from the response's usage block and the configured model name. -/
def createChatResult (cfg : Config) (response : Dict) :
    Except ZError ChatResult := do
  let choices ← (match Dict.get? response "choices" with
    | some (.list xs) => pure xs
    | some _ => throw (ZError.typeError "choices is not a list")
    | none => throw (ZError.keyError "choices"))
  let gens ← choices.mapM (fun c => do
    let cd ← (match c with
      | .dict cd => pure cd
      | _ => throw (ZError.typeError "choice is not a mapping"))
    let md ← (match Dict.get? cd "message" with
      | some (.dict md) => pure md
      | some _ => throw (ZError.typeError "message is not a mapping")
      | none => throw (ZError.keyError "message"))
    pure (⟨convertDictToMessage md,
           some [("finish_reason", Dict.pyGet cd "finish_reason")]⟩ : GenChunk))
  pure ⟨gens, some [("token_usage", Dict.pyGet response "usage"),
                    ("model_name", .str cfg.model_name)]⟩

/-- `overall[k] += v` on Python values (the numeric cases the usage dicts
carry, plus Python's other homogeneous additions). -/
def pvalAdd : PVal → PVal → Except ZError PVal
  | .num a, .num b => .ok (.num (a + b))
  | .rat a, .rat b => .ok (.rat (a + b))
  | .num a, .rat b => .ok (.rat (a + b))
  | .rat a, .num b => .ok (.rat (a + b))
  | .str a, .str b => .ok (.str (a ++ b))
  | .list a, .list b => .ok (.list (a ++ b))
  | _, _ => .error (ZError.typeError "unsupported operand types")

/-- The inner loop of `_combine_llm_outputs` (lines 328-332): fold one
output's `token_usage` items into the overall accumulator, adding to a key
already seen and initializing it otherwise. -/
def accumUsage (acc : Dict) : List (String × PVal) → Except ZError Dict
  | [] => .ok acc
  | (k, v) :: rest =>
      match Dict.get? acc k with
      | some cur =>
          match pvalAdd cur v with
          | .ok s => accumUsage (Dict.insert acc k s) rest
          | .error e => .error e
      | none => accumUsage (Dict.insert acc k v) rest

/-- The outer loop of `_combine_llm_outputs` (lines 322-332): `None` entries
are skipped, each present entry's `"token_usage"` is looked up (a `KeyError`
when absent), and a non-`None` usage mapping is accumulated key-wise. -/
def combineGo (acc : Dict) : List (Option Dict) → Except ZError Dict
  | [] => .ok acc
  | none :: rest => combineGo acc rest
  | some o :: rest =>
      match Dict.get? o "token_usage" with
      | none => .error (ZError.keyError "token_usage")
      | some .null => combineGo acc rest
      | some (.dict items) =>
          match accumUsage acc items with
          | .ok acc' => combineGo acc' rest
          | .error e => .error e
      | some _ => .error (ZError.typeError "token_usage is not a mapping")

/-- `_combine_llm_outputs(llm_outputs)` (lines 320-334). -/
def combineLLMOutputs (cfg : Config) (outs : List (Option Dict)) :
    Except ZError Dict :=
  match combineGo [] outs with
  | .error e => .error e
  | .ok overall =>
      .ok [("token_usage", .dict overall),
           ("model_name", .str cfg.model_name)]

/-- The provider error kinds named by `_create_retry_decorator`
(lines 412-420), plus a non-retryable remainder. -/
inductive ProviderErr where
  | apiTimeout
  | zhipuaiErr
  | requestFailed
  | reachLimit
  | internalErr
  | other (s : String)
deriving DecidableEq

/-- Whether an error is one of the five retryable kinds registered with the
retry decorator. -/
def isTransient : ProviderErr → Bool
  | .apiTimeout => true
  | .zhipuaiErr => true
  | .requestFailed => true
  | .reachLimit => true
  | .internalErr => true
  | .other _ => false

/-- Modelled from the spec: the bounded retry loop of
`create_base_retry_decorator` (langchain_core, not under src/): attempt the
call; on a recognized transient error with retries remaining, retry the next
attempt; otherwise surface the error as-is.  `call i` is the outcome of the
i-th attempt of the wrapped provider call. -/
def retryGo {α : Type} (call : Nat → Except ProviderErr α) :
    Nat → Nat → Except ProviderErr α
  | i, fuel =>
      match call i with
      | .ok v => .ok v
      | .error e =>
          if isTransient e then
            match fuel with
            | 0 => .error e
            | fuel' + 1 => retryGo call (i + 1) fuel'
          else .error e

/-- `completion_with_retry` (lines 336-344): the provider call wrapped in the
retry policy with the configured `max_retries` bound. -/
def completionWithRetry {α : Type} (cfg : Config)
    (call : Nat → Except ProviderErr α) : Except ProviderErr α :=
  retryGo call 0 cfg.max_retries

/-! ## Dictionary lemmas -/

theorem Dict.get_insert (d : Dict) (k q : String) (v : PVal) :
    Dict.get? (Dict.insert d k v) q =
      if k = q then some v else Dict.get? d q := by
  induction d with
  | nil => simp [Dict.insert, Dict.get?]
  | cons p rest ih =>
    obtain ⟨k', v'⟩ := p
    simp only [Dict.insert]
    by_cases h1 : k' = k
    · subst h1
      by_cases h2 : k' = q <;> simp [Dict.get?, h2]
    · simp only [if_neg h1, Dict.get?]
      by_cases h2 : k' = q
      · subst h2
        have hk : ¬(k = k') := fun hh => h1 hh.symm
        simp [Dict.get?, hk]
      · simp [h2, ih]

theorem Dict.mergeRight_nil (a : Dict) : Dict.mergeRight a [] = a := rfl

theorem Dict.mergeRight_cons (a : Dict) (k : String) (v : PVal) (rest : Dict) :
    Dict.mergeRight a ((k, v) :: rest) =
      Dict.mergeRight (Dict.insert a k v) rest := rfl

theorem Dict.member_cons_false {k' : String} {v' : PVal} {rest : Dict}
    {k : String} (h : Dict.member ((k', v') :: rest) k = false) :
    k' ≠ k ∧ Dict.member rest k = false := by
  unfold Dict.member at h ⊢
  unfold Dict.get? at h
  by_cases hq : k' = k
  · simp [hq] at h
  · simpa [hq] using h

theorem Dict.get_mergeRight_notin (b : Dict) (a : Dict) (k : String)
    (h : Dict.member b k = false) :
    Dict.get? (Dict.mergeRight a b) k = Dict.get? a k := by
  induction b generalizing a with
  | nil => rfl
  | cons p rest ih =>
    obtain ⟨k', v'⟩ := p
    obtain ⟨hne, hrest⟩ := Dict.member_cons_false h
    rw [Dict.mergeRight_cons, ih _ hrest, Dict.get_insert]
    simp [hne]

theorem defaultParams_no_stop (cfg : Config) :
    Dict.member (defaultParams cfg) "stop" = false := by
  unfold defaultParams
  cases h : cfg.max_tokens <;> simp only [h] <;> rfl

/-- A raw frame whose `"choices"` value is the empty list. -/
def isEmptyFrame (f : Dict) : Bool :=
  match Dict.get? f "choices" with
  | some (.list []) => true
  | _ => false

theorem streamFrame_skip_iff (dc : ChunkClass) (f : Dict)
    (oc : Option GenChunk) (dc' : ChunkClass)
    (h : streamFrame dc f = .ok (oc, dc')) :
    (oc = none ↔ isEmptyFrame f = true) := by
  unfold streamFrame at h
  unfold isEmptyFrame
  split at h
  case h_1 => exact Except.noConfusion h
  case h_2 =>
    rename_i x heq
    injection h with h1
    injection h1 with h2 h3
    subst h2
    rw [heq]
    simp
  case h_3 =>
    rename_i x c tail heq
    rw [heq]
    split at h
    case h_1 =>
      split at h
      case h_1 =>
        split at h
        case h_1 =>
          injection h with h1
          injection h1 with h2 h3
          subst h2
          simp
        case h_2 => exact Except.noConfusion h
      case h_2 => exact Except.noConfusion h
      case h_3 => exact Except.noConfusion h
    case h_2 => exact Except.noConfusion h
  case h_4 => exact Except.noConfusion h

theorem streamChunks_length (frames : List Dict) :
    ∀ dc cs, streamChunks dc frames = .ok cs →
      cs.length + frames.countP isEmptyFrame = frames.length := by
  induction frames with
  | nil =>
    intro dc cs h
    injection h with h
    simp [← h]
  | cons f fs ih =>
    intro dc cs h
    unfold streamChunks at h
    split at h
    case h_1 => exact Except.noConfusion h
    case h_2 =>
      rename_i oc dc' hs
      split at h
      case h_1 => exact Except.noConfusion h
      case h_2 =>
        rename_i rest hr
        have hrec := ih dc' rest hr
        split at h
        case h_1 =>
          rename_i c
          injection h with h1
          have he : isEmptyFrame f = false := by
            cases hb : isEmptyFrame f
            · rfl
            · exact Option.noConfusion
                ((streamFrame_skip_iff dc f (some c) dc' hs).2 hb)
          simp [← h1, List.countP_cons, he]
          omega
        case h_2 =>
          injection h with h1
          have he : isEmptyFrame f = true :=
            (streamFrame_skip_iff dc f none dc' hs).1 rfl
          simp [← h1, List.countP_cons, he]
          omega

/-! ## Claims -/

/-- C5: a raw frame whose `"choices"` list is empty is skipped by `_stream`
and produces no chunk, so the emitted chunk count is the raw frame count
minus the number of empty-choices frames; in particular with exactly one
empty-choices frame interleaved among valid frames the chunk sequence has
one fewer element than the raw frame count. -/
theorem c5_empty_frames_skipped (dc : ChunkClass) (frames : List Dict)
    (cs : List GenChunk) (h : streamChunks dc frames = .ok cs) :
    cs.length + frames.countP isEmptyFrame = frames.length ∧
    (frames.countP isEmptyFrame = 1 → cs.length = frames.length - 1) := by
  have hl := streamChunks_length frames dc cs h
  exact ⟨hl, fun h1 => by omega⟩

/-- Three raw frames: two valid single-choice frames around one frame whose
choices list is empty. -/
def c5Frames : List Dict :=
  [[("choices", .list [.dict [("delta", .dict [("content", .str "a")])]])],
   [("choices", .list [])],
   [("choices", .list [.dict [("delta", .dict [("content", .str "b")])]])]]

/-- The two chunks `_stream` emits over `c5Frames`. -/
def c5Chunks : List GenChunk :=
  [⟨.ai (.str "a") [], none⟩, ⟨.ai (.str "b") [], none⟩]

theorem c5_empty_frames_skipped_witness :
    streamChunks .ai c5Frames = .ok c5Chunks ∧
    List.countP isEmptyFrame c5Frames = 1 ∧
    c5Chunks.length = c5Frames.length - 1 :=
  ⟨rfl, rfl, (c5_empty_frames_skipped .ai c5Frames c5Chunks rfl).2 rfl⟩

/-- The claim's ordering property on a `_stream` trace, following the spec's
words: every yielded chunk was reported to the notification callback at an
earlier position of the trace. -/
def notifiedBeforeYielded (evs : List Event) : Prop :=
  ∀ (j : Nat) (c : GenChunk), evs.get? j = some (Event.yieldChunk c) →
    ∃ (i : Nat) (t : PVal), i < j ∧ evs.get? i = some (Event.notify t c)

/-- One valid single-choice raw frame. -/
def c7Frames : List Dict :=
  [[("choices", .list [.dict [("delta", .dict [("content", .str "hi")])]])]]

/-- The chunk `_stream` emits over `c7Frames`. -/
def c7Chunk : GenChunk := ⟨.ai (.str "hi") [], none⟩

/-- C7 counterexample: over `c7Frames` with a run manager present, the trace
is yield first and notification second, so the chunk is not reported before
it is yielded. -/
theorem c7_notify_before_yield_cx :
    streamEvents true .ai c7Frames =
      .ok [Event.yieldChunk c7Chunk, Event.notify (.str "hi") c7Chunk] ∧
    ¬ notifiedBeforeYielded
        [Event.yieldChunk c7Chunk, Event.notify (.str "hi") c7Chunk] :=
  ⟨rfl, fun h => by
    obtain ⟨i, t, hi, _⟩ := h 0 c7Chunk rfl
    exact absurd hi (Nat.not_lt_zero i)⟩

/-- C7 amended: each emitted chunk is reported to the progress-notification
callback (when one is present) immediately AFTER the chunk is yielded and
before the next chunk is produced, as a synchronous in-order notification:
with a run manager the trace is exactly yield-then-notify per chunk. -/
theorem c7_notify_after_yield (dc : ChunkClass) (frames : List Dict)
    (cs : List GenChunk) (h : streamChunks dc frames = .ok cs) :
    streamEvents true dc frames =
      .ok (cs.flatMap
        (fun c => [Event.yieldChunk c, Event.notify c.textOf c])) := by
  induction frames generalizing dc cs with
  | nil =>
    injection h with h1
    rw [← h1]
    rfl
  | cons f fs ih =>
    unfold streamChunks at h
    split at h
    case h_1 => exact Except.noConfusion h
    case h_2 =>
      rename_i oc dc' hs
      split at h
      case h_1 => exact Except.noConfusion h
      case h_2 =>
        rename_i rest hr
        have ihe := ih dc' rest hr
        cases oc with
        | some c =>
          injection h with h1
          rw [← h1]
          unfold streamEvents
          rw [hs]
          show (match streamEvents true dc' fs with
                | Except.error e => Except.error e
                | Except.ok rest2 =>
                    Except.ok ((Event.yieldChunk c ::
                      if true then [Event.notify c.textOf c] else []) ++ rest2))
            = _
          rw [ihe]
          rfl
        | none =>
          injection h with h1
          rw [← h1]
          unfold streamEvents
          rw [hs]
          show (match streamEvents true dc' fs with
                | Except.error e => Except.error e
                | Except.ok rest2 => Except.ok rest2) = _
          rw [ihe]

theorem c7_notify_after_yield_witness :
    streamChunks .ai c7Frames = .ok [c7Chunk] ∧
    streamEvents true .ai c7Frames =
      .ok ([c7Chunk].flatMap
        (fun c => [Event.yieldChunk c, Event.notify c.textOf c])) :=
  ⟨rfl, c7_notify_after_yield .ai c7Frames [c7Chunk] rfl⟩

/-- The position of a message class in the dispatch cascade of
`_convert_delta_to_message_chunk`. -/
def classRank : ChunkClass → Nat
  | .human => 0
  | .ai => 1
  | .system => 2
  | .function => 3
  | .tool => 4
  | .chat => 5

/-- The dispatch position a delta's role value can fire on: the five named
roles at their branch positions, any other truthy role at the generic-chat
branch, and a falsy role (absent, `None` or `""`) never. -/
def roleRank : PVal → Nat
  | .str s =>
      if s = "user" then 0
      else if s = "assistant" then 1
      else if s = "system" then 2
      else if s = "function" then 3
      else if s = "tool" then 4
      else if s = "" then 6
      else 5
  | _ => 6

/-- The message class at a dispatch position. -/
def variantAt : Nat → ChunkClass
  | 0 => .human
  | 1 => .ai
  | 2 => .system
  | 3 => .function
  | 4 => .tool
  | _ => .chat

/-- The claim's variant rule, following the spec's words: the carried variant
is kept unless the chunk's own role field selects a variant. -/
def specSelectClass (role : PVal) (prev : ChunkClass) : ChunkClass :=
  if roleRank role ≤ 5 then variantAt (roleRank role) else prev

/-- Two frames: a first delta with role `user`, a second with role
`system`. -/
def c8Frames : List Dict :=
  [[("choices", .list [.dict [("delta", .dict [("role", .str "user")])]])],
   [("choices", .list [.dict [("delta", .dict [("role", .str "system")])]])]]

/-- C8 counterexample: over `c8Frames` the stream maps both chunks to the
human variant — the second chunk's own role field selects the system variant
but the carried human variant wins in the dispatch cascade, so the claim's
rule (role overrides the carried variant) predicts `system` and the code
produces `human`. -/
theorem c8_role_carryover_cx :
    streamChunks .ai c8Frames =
      .ok [⟨.human (.str ""), none⟩, ⟨.human (.str ""), none⟩] ∧
    specSelectClass (.str "system") ChunkClass.human = ChunkClass.system ∧
    (BaseMsg.human (.str "")).classOf ≠ ChunkClass.system :=
  ⟨rfl, rfl, fun h => ChunkClass.noConfusion h⟩

theorem selectClass_rank (role : PVal) (dc : ChunkClass)
    (hro : role = .null ∨ ∃ s, role = .str s) :
    selectClass role dc =
      if roleRank role < classRank dc then variantAt (roleRank role)
      else dc := by
  rcases hro with h | ⟨s, h⟩ <;> subst h
  · cases dc <;> decide
  · by_cases h1 : s = "user"
    · subst h1; cases dc <;> decide
    · by_cases h2 : s = "assistant"
      · subst h2; cases dc <;> decide
      · by_cases h3 : s = "system"
        · subst h3; cases dc <;> decide
        · by_cases h4 : s = "function"
          · subst h4; cases dc <;> decide
          · by_cases h5 : s = "tool"
            · subst h5; cases dc <;> decide
            · by_cases h6 : s = ""
              · subst h6; cases dc <;> decide
              · cases dc <;>
                  simp [selectClass, roleRank, classRank, variantAt, pyTruthy,
                        PVal.isStr, h1, h2, h3, h4, h5, h6]

theorem convertDelta_classOf (d : Dict) (dc : ChunkClass) (msg : BaseMsg)
    (h : convertDeltaToMessageChunk d dc = .ok msg) :
    msg.classOf = selectClass (Dict.pyGet d "role") dc := by
  unfold convertDeltaToMessageChunk at h
  cases hak : buildAdditionalKwargs d with
  | error e => rw [hak] at h; exact Except.noConfusion h
  | ok ak =>
    rw [hak] at h
    cases hsel : selectClass (Dict.pyGet d "role") dc with
    | human =>
      rw [hsel] at h
      injection h with h1
      rw [← h1]
      rfl
    | ai =>
      rw [hsel] at h
      injection h with h1
      rw [← h1]
      rfl
    | system =>
      rw [hsel] at h
      injection h with h1
      rw [← h1]
      rfl
    | function =>
      rw [hsel] at h
      cases hn : Dict.get? d "name" with
      | some v =>
        rw [hn] at h
        injection h with h1
        rw [← h1]
        rfl
      | none => rw [hn] at h; exact Except.noConfusion h
    | tool =>
      rw [hsel] at h
      cases hn : Dict.get? d "tool_call_id" with
      | some v =>
        rw [hn] at h
        injection h with h1
        rw [← h1]
        rfl
      | none => rw [hn] at h; exact Except.noConfusion h
    | chat =>
      rw [hsel] at h
      injection h with h1
      rw [← h1]
      rfl

theorem streamFrame_some (dc : ChunkClass) (frame : Dict) (ch : GenChunk)
    (dc' : ChunkClass) (hs : streamFrame dc frame = .ok (some ch, dc')) :
    dc' = ch.message.classOf ∧
    ∃ choice tail delta,
      Dict.get? frame "choices" = some (.list (PVal.dict choice :: tail)) ∧
      Dict.get? choice "delta" = some (.dict delta) ∧
      convertDeltaToMessageChunk delta dc = .ok ch.message := by
  unfold streamFrame at hs
  split at hs
  case h_1 => exact Except.noConfusion hs
  case h_2 =>
    injection hs with h1
    injection h1 with h2 h3
    exact Option.noConfusion h2
  case h_3 =>
    rename_i x c tail heq
    split at hs
    case h_1 =>
      rename_i choice
      split at hs
      case h_1 =>
        rename_i delta hd
        split at hs
        case h_1 =>
          rename_i msg hm
          injection hs with h1
          injection h1 with h2 h3
          injection h2 with h2
          refine ⟨?_, choice, tail, delta, heq, hd, ?_⟩
          · rw [← h2, ← h3]
          · rw [← h2]
            exact hm
        case h_2 => exact Except.noConfusion hs
      case h_2 => exact Except.noConfusion hs
      case h_3 => exact Except.noConfusion hs
    case h_2 => exact Except.noConfusion hs
  case h_4 => exact Except.noConfusion hs

/-- C8 amended: within one invocation of `_stream`, the carried variant is
updated to each produced chunk's variant, and the variant chosen for a chunk
is the variant of the immediately preceding chunk (initially the assistant
variant) unless the chunk's own delta carries a role whose dispatch position
in the fixed cascade (user, assistant, system, function, tool, other-truthy)
comes strictly before the carried variant's position — a role firing at or
after the carried variant's branch is overridden by the carried variant. -/
theorem c8_role_carryover_amended (dc : ChunkClass) (frame : Dict)
    (choice delta : Dict) (tail : List PVal) (ch : GenChunk)
    (dc' : ChunkClass)
    (hc : Dict.get? frame "choices" = some (.list (PVal.dict choice :: tail)))
    (hd : Dict.get? choice "delta" = some (.dict delta))
    (hro : Dict.pyGet delta "role" = .null ∨
           ∃ s, Dict.pyGet delta "role" = .str s)
    (hs : streamFrame dc frame = .ok (some ch, dc')) :
    ch.message.classOf =
      (if roleRank (Dict.pyGet delta "role") < classRank dc
       then variantAt (roleRank (Dict.pyGet delta "role")) else dc) ∧
    dc' = ch.message.classOf := by
  obtain ⟨hdc, choice2, tail2, delta2, hc2, hd2, hconv⟩ :=
    streamFrame_some dc frame ch dc' hs
  rw [hc] at hc2
  injection hc2 with hc2
  injection hc2 with hc2
  injection hc2 with hc3 hc4
  injection hc3 with hc3
  subst hc3
  rw [hd] at hd2
  injection hd2 with hd2
  injection hd2 with hd2
  subst hd2
  have hcls := convertDelta_classOf delta dc ch.message hconv
  rw [selectClass_rank _ _ hro] at hcls
  exact ⟨hcls, hdc⟩

/-- A frame whose delta carries role `tool` with a tool-call id. -/
def c8ToolFrame : Dict :=
  [("choices", .list [.dict [("delta",
    .dict [("role", .str "tool"), ("tool_call_id", .str "t1")])]])]

theorem c8_role_carryover_amended_witness :
    streamFrame .chat c8ToolFrame =
      .ok (some ⟨.tool (.str "") (.str "t1"), none⟩, .tool) ∧
    (BaseMsg.tool (.str "") (.str "t1")).classOf =
      (if roleRank (Dict.pyGet [("role", PVal.str "tool"),
            ("tool_call_id", PVal.str "t1")] "role") < classRank .chat
       then variantAt (roleRank (Dict.pyGet [("role", PVal.str "tool"),
            ("tool_call_id", PVal.str "t1")] "role")) else .chat) ∧
    ChunkClass.tool = (BaseMsg.tool (.str "") (.str "t1")).classOf :=
  ⟨rfl,
   (c8_role_carryover_amended .chat c8ToolFrame
     [("delta", .dict [("role", .str "tool"), ("tool_call_id", .str "t1")])]
     [("role", .str "tool"), ("tool_call_id", .str "t1")] []
     ⟨.tool (.str "") (.str "t1"), none⟩ .tool rfl rfl
     (Or.inr ⟨"tool", rfl⟩) rfl).1,
   (c8_role_carryover_amended .chat c8ToolFrame
     [("delta", .dict [("role", .str "tool"), ("tool_call_id", .str "t1")])]
     [("role", .str "tool"), ("tool_call_id", .str "t1")] []
     ⟨.tool (.str "") (.str "t1"), none⟩ .tool rfl rfl
     (Or.inr ⟨"tool", rfl⟩) rfl).2⟩

/-- A delta whose `function_call` field (when truthy) is a mapping, as the
provider schema guarantees — `dict(...)` in the source requires it. -/
def wfDelta (d : Dict) : Prop :=
  pyTruthy (Dict.pyGet d "function_call") = false ∨
  ∃ fc, Dict.pyGet d "function_call" = PVal.dict fc

theorem buildAK_ok (d : Dict) (hwf : wfDelta d) :
    ∃ ak, buildAdditionalKwargs d = .ok ak := by
  unfold buildAdditionalKwargs
  rcases hwf with h | ⟨fc, h⟩
  · rw [h]
    cases h2 : pyTruthy (Dict.pyGet d "tool_calls") <;> simp [h2]
  · rw [h]
    cases h1 : pyTruthy (PVal.dict fc) <;>
      cases h2 : pyTruthy (Dict.pyGet d "tool_calls") <;>
        simp [h1, h2]

/-- C10: for every delta mapping (whose `function_call` field, when truthy,
is a mapping as the provider schema guarantees), a conversion whose selected
variant is the function variant succeeds exactly when the delta has a
`"name"` key and otherwise fails with the `KeyError` for `"name"`; the tool
variant likewise requires `"tool_call_id"`; every other variant converts
totally, and a missing or `None` content field is replaced by the empty
string. -/
theorem c10_delta_conversion (d : Dict) (dc : ChunkClass) (hwf : wfDelta d) :
    (selectClass (Dict.pyGet d "role") dc = .function →
      ((convertDeltaToMessageChunk d dc).isOk = true ↔
        Dict.member d "name" = true) ∧
      (Dict.member d "name" = false →
        convertDeltaToMessageChunk d dc = .error (ZError.keyError "name"))) ∧
    (selectClass (Dict.pyGet d "role") dc = .tool →
      ((convertDeltaToMessageChunk d dc).isOk = true ↔
        Dict.member d "tool_call_id" = true) ∧
      (Dict.member d "tool_call_id" = false →
        convertDeltaToMessageChunk d dc =
          .error (ZError.keyError "tool_call_id"))) ∧
    (selectClass (Dict.pyGet d "role") dc ≠ .function →
     selectClass (Dict.pyGet d "role") dc ≠ .tool →
      ∃ msg, convertDeltaToMessageChunk d dc = .ok msg) ∧
    (∀ msg, convertDeltaToMessageChunk d dc = .ok msg →
      (Dict.get? d "content" = none ∨ Dict.get? d "content" = some .null) →
      msg.contentOf = .str "") := by
  obtain ⟨ak, hak⟩ := buildAK_ok d hwf
  have hstep : convertDeltaToMessageChunk d dc =
      (match selectClass (Dict.pyGet d "role") dc with
       | .human => .ok (.human (contentV d))
       | .ai => .ok (.ai (contentV d) ak)
       | .system => .ok (.system (contentV d))
       | .function =>
           match Dict.get? d "name" with
           | some v => .ok (.function (contentV d) v)
           | none => .error (ZError.keyError "name")
       | .tool =>
           match Dict.get? d "tool_call_id" with
           | some v => .ok (.tool (contentV d) v)
           | none => .error (ZError.keyError "tool_call_id")
       | .chat => .ok (.chat (contentV d) (Dict.pyGet d "role"))) := by
    unfold convertDeltaToMessageChunk
    rw [hak]
  have hcv : (Dict.get? d "content" = none ∨
      Dict.get? d "content" = some .null) → contentV d = .str "" := by
    intro hcn
    unfold contentV Dict.pyGet
    rcases hcn with hcn | hcn <;> rw [hcn] <;> rfl
  refine ⟨?_, ?_, ?_, ?_⟩
  · intro hf
    rw [hf] at hstep
    unfold Dict.member
    constructor
    · constructor
      · intro hok
        cases hn : Dict.get? d "name" with
        | some v => rfl
        | none =>
          rw [hn] at hstep
          rw [hstep] at hok
          exact Bool.noConfusion hok
      · intro hmem
        cases hn : Dict.get? d "name" with
        | some v => rw [hn] at hstep; rw [hstep]; rfl
        | none => rw [hn] at hmem; exact Bool.noConfusion hmem
    · intro hmem
      cases hn : Dict.get? d "name" with
      | some v => rw [hn] at hmem; exact Bool.noConfusion hmem
      | none => rw [hn] at hstep; exact hstep
  · intro hf
    rw [hf] at hstep
    unfold Dict.member
    constructor
    · constructor
      · intro hok
        cases hn : Dict.get? d "tool_call_id" with
        | some v => rfl
        | none =>
          rw [hn] at hstep
          rw [hstep] at hok
          exact Bool.noConfusion hok
      · intro hmem
        cases hn : Dict.get? d "tool_call_id" with
        | some v => rw [hn] at hstep; rw [hstep]; rfl
        | none => rw [hn] at hmem; exact Bool.noConfusion hmem
    · intro hmem
      cases hn : Dict.get? d "tool_call_id" with
      | some v => rw [hn] at hmem; exact Bool.noConfusion hmem
      | none => rw [hn] at hstep; exact hstep
  · intro hnf hnt
    cases hsel : selectClass (Dict.pyGet d "role") dc with
    | human => rw [hsel] at hstep; exact ⟨_, hstep⟩
    | ai => rw [hsel] at hstep; exact ⟨_, hstep⟩
    | system => rw [hsel] at hstep; exact ⟨_, hstep⟩
    | function => exact absurd hsel hnf
    | tool => exact absurd hsel hnt
    | chat => rw [hsel] at hstep; exact ⟨_, hstep⟩
  · intro msg hok hcn
    have hc := hcv hcn
    cases hsel : selectClass (Dict.pyGet d "role") dc with
    | human =>
      rw [hsel] at hstep
      rw [hstep] at hok
      injection hok with hok
      rw [← hok]
      exact hc
    | ai =>
      rw [hsel] at hstep
      rw [hstep] at hok
      injection hok with hok
      rw [← hok]
      exact hc
    | system =>
      rw [hsel] at hstep
      rw [hstep] at hok
      injection hok with hok
      rw [← hok]
      exact hc
    | function =>
      rw [hsel] at hstep
      cases hn : Dict.get? d "name" with
      | some v =>
        rw [hn] at hstep
        rw [hstep] at hok
        injection hok with hok
        rw [← hok]
        exact hc
      | none =>
        rw [hn] at hstep
        rw [hstep] at hok
        exact Except.noConfusion hok
    | tool =>
      rw [hsel] at hstep
      cases hn : Dict.get? d "tool_call_id" with
      | some v =>
        rw [hn] at hstep
        rw [hstep] at hok
        injection hok with hok
        rw [← hok]
        exact hc
      | none =>
        rw [hn] at hstep
        rw [hstep] at hok
        exact Except.noConfusion hok
    | chat =>
      rw [hsel] at hstep
      rw [hstep] at hok
      injection hok with hok
      rw [← hok]
      exact hc

theorem c10_delta_conversion_witness :
    wfDelta [("role", PVal.str "function")] ∧
    selectClass (Dict.pyGet [("role", PVal.str "function")] "role") .chat =
      .function ∧
    convertDeltaToMessageChunk [("role", PVal.str "function")] .chat =
      .error (ZError.keyError "name") ∧
    wfDelta [("role", PVal.str "tool")] ∧
    convertDeltaToMessageChunk [("role", PVal.str "tool")] .chat =
      .error (ZError.keyError "tool_call_id") ∧
    wfDelta [("role", PVal.str "assistant"), ("content", PVal.null)] ∧
    convertDeltaToMessageChunk
      [("role", PVal.str "assistant"), ("content", PVal.null)] .ai =
      .ok (.ai (.str "") []) :=
  ⟨Or.inl rfl, rfl,
   ((c10_delta_conversion [("role", PVal.str "function")] .chat
      (Or.inl rfl)).1 rfl).2 rfl,
   Or.inl rfl,
   (((c10_delta_conversion [("role", PVal.str "tool")] .chat
      (Or.inl rfl)).2).1 rfl).2 rfl,
   Or.inl rfl, rfl⟩

/-- The integer a Python value contributes to a usage sum. -/
def numOf : PVal → Int
  | .num n => n
  | _ => 0

/-- Whether a value is an integer. -/
def isNumV : PVal → Bool
  | .num _ => true
  | _ => false

/-- The integer stored in a dict at a key (0 when absent or non-integer). -/
def usageInt (d : Dict) (k : String) : Int :=
  match Dict.get? d k with
  | some (.num n) => n
  | _ => 0

/-- The sum of the integers stored at key `q` across an item list. -/
def itemsSum (items : List (String × PVal)) (q : String) : Int :=
  ((items.filter (fun p => p.1 == q)).map (fun p => numOf p.2)).sum

/-- The usage contribution of one optional output at key `q`. -/
def outUsageSum (o : Option Dict) (q : String) : Int :=
  match o with
  | none => 0
  | some d =>
    match Dict.get? d "token_usage" with
    | some (.dict items) => itemsSum items q
    | _ => 0

/-- The key-wise usage sum across a list of optional outputs. -/
def outsSum (outs : List (Option Dict)) (q : String) : Int :=
  (outs.map (fun o => outUsageSum o q)).sum

/-- An accumulator dict whose values are all integers. -/
def accNum (d : Dict) : Bool :=
  d.all (fun p => isNumV p.2)

/-- An optional output `_combine_llm_outputs` processes without a type
error: either absent, or carrying a `"token_usage"` key holding `None` or an
all-integer mapping. -/
def validOut : Option Dict → Bool
  | none => true
  | some d =>
    match Dict.get? d "token_usage" with
    | some .null => true
    | some (.dict items) => items.all (fun p => isNumV p.2)
    | _ => false

theorem accNum_get {d : Dict} {k : String} {v : PVal}
    (hd : accNum d = true) (hg : Dict.get? d k = some v) :
    isNumV v = true := by
  induction d with
  | nil => exact Option.noConfusion hg
  | cons p rest ih =>
    obtain ⟨k', v'⟩ := p
    simp only [accNum, List.all_cons, Bool.and_eq_true] at hd
    unfold Dict.get? at hg
    by_cases h1 : k' = k
    · rw [if_pos h1] at hg
      injection hg with hg
      rw [← hg]
      exact hd.1
    · rw [if_neg h1] at hg
      exact ih hd.2 hg

theorem accNum_insert (d : Dict) (k : String) (v : PVal)
    (hd : accNum d = true) (hv : isNumV v = true) :
    accNum (Dict.insert d k v) = true := by
  induction d with
  | nil => simp [Dict.insert, accNum, hv]
  | cons p rest ih =>
    obtain ⟨k', v'⟩ := p
    simp only [accNum, List.all_cons, Bool.and_eq_true] at hd
    by_cases h1 : k' = k
    · simp [Dict.insert, h1, accNum, hv, hd.2]
    · have := ih hd.2
      simp only [accNum] at this
      simp [Dict.insert, h1, accNum, hd.1, this]

theorem usageInt_insert (d : Dict) (k : String) (v : PVal) (q : String) :
    usageInt (Dict.insert d k v) q =
      if k = q then numOf v else usageInt d q := by
  unfold usageInt
  rw [Dict.get_insert]
  by_cases h : k = q
  · rw [if_pos h, if_pos h]
    cases v <;> rfl
  · rw [if_neg h, if_neg h]

theorem itemsSum_cons (k : String) (v : PVal) (rest : List (String × PVal))
    (q : String) :
    itemsSum ((k, v) :: rest) q =
      (if k = q then numOf v else 0) + itemsSum rest q := by
  unfold itemsSum
  by_cases h : k = q <;> simp [List.filter_cons, h]

theorem accumUsage_spec (items : List (String × PVal)) :
    ∀ acc, accNum acc = true →
      items.all (fun p => isNumV p.2) = true →
      ∃ acc', accumUsage acc items = .ok acc' ∧ accNum acc' = true ∧
        ∀ q, usageInt acc' q = usageInt acc q + itemsSum items q := by
  induction items with
  | nil =>
    intro acc ha _
    exact ⟨acc, rfl, ha, fun q => by simp [itemsSum]⟩
  | cons p rest ih =>
    obtain ⟨k, v⟩ := p
    intro acc ha hall
    simp only [List.all_cons, Bool.and_eq_true] at hall
    obtain ⟨n, hn⟩ : ∃ n, v = .num n := by
      cases v with
      | num n => exact ⟨n, rfl⟩
      | null => exact absurd hall.1 (by simp [isNumV])
      | bool b => exact absurd hall.1 (by simp [isNumV])
      | rat q => exact absurd hall.1 (by simp [isNumV])
      | str s => exact absurd hall.1 (by simp [isNumV])
      | list l => exact absurd hall.1 (by simp [isNumV])
      | dict dd => exact absurd hall.1 (by simp [isNumV])
    subst hn
    unfold accumUsage
    cases hg : Dict.get? acc k with
    | none =>
      obtain ⟨acc', h1, h2, h3⟩ :=
        ih (Dict.insert acc k (.num n)) (accNum_insert acc k _ ha rfl) hall.2
      refine ⟨acc', h1, h2, fun q => ?_⟩
      rw [h3 q, usageInt_insert, itemsSum_cons]
      have hz : usageInt acc k = 0 := by unfold usageInt; rw [hg]
      by_cases hq : k = q
      · subst hq
        rw [if_pos rfl, if_pos rfl, hz]
        simp [numOf]
      · rw [if_neg hq, if_neg hq]
        omega
    | some cur =>
      obtain ⟨m, hm⟩ : ∃ m, cur = .num m := by
        have hnum := accNum_get ha hg
        cases cur with
        | num m => exact ⟨m, rfl⟩
        | null => exact absurd hnum (by simp [isNumV])
        | bool b => exact absurd hnum (by simp [isNumV])
        | rat q => exact absurd hnum (by simp [isNumV])
        | str s => exact absurd hnum (by simp [isNumV])
        | list l => exact absurd hnum (by simp [isNumV])
        | dict dd => exact absurd hnum (by simp [isNumV])
      subst hm
      obtain ⟨acc', h1, h2, h3⟩ :=
        ih (Dict.insert acc k (.num (m + n)))
          (accNum_insert acc k _ ha rfl) hall.2
      refine ⟨acc', h1, h2, fun q => ?_⟩
      rw [h3 q, usageInt_insert, itemsSum_cons]
      have hm' : usageInt acc k = m := by unfold usageInt; rw [hg]
      by_cases hq : k = q
      · subst hq
        rw [if_pos rfl, if_pos rfl, hm']
        simp [numOf]
        omega
      · rw [if_neg hq, if_neg hq]
        omega

theorem combineGo_spec (outs : List (Option Dict)) :
    ∀ acc, accNum acc = true → outs.all validOut = true →
      ∃ acc', combineGo acc outs = .ok acc' ∧ accNum acc' = true ∧
        ∀ q, usageInt acc' q = usageInt acc q + outsSum outs q := by
  induction outs with
  | nil =>
    intro acc ha _
    exact ⟨acc, rfl, ha, fun q => by simp [outsSum]⟩
  | cons o rest ih =>
    intro acc ha hall
    simp only [List.all_cons, Bool.and_eq_true] at hall
    cases o with
    | none =>
      obtain ⟨acc', h1, h2, h3⟩ := ih acc ha hall.2
      refine ⟨acc', h1, h2, fun q => ?_⟩
      rw [h3 q]
      simp [outsSum, outUsageSum]
    | some d =>
      have hv := hall.1
      unfold combineGo
      cases hg : Dict.get? d "token_usage" with
      | none => simp [validOut, hg] at hv
      | some tu =>
        cases tu with
        | null =>
          obtain ⟨acc', h1, h2, h3⟩ := ih acc ha hall.2
          refine ⟨acc', h1, h2, fun q => ?_⟩
          rw [h3 q]
          simp [outsSum, outUsageSum, hg]
        | dict items =>
          have hitems : items.all (fun p => isNumV p.2) = true := by
            simpa [validOut, hg] using hv
          obtain ⟨acc1, h1, h2, h3⟩ := accumUsage_spec items acc ha hitems
          obtain ⟨acc', h4, h5, h6⟩ := ih acc1 h2 hall.2
          refine ⟨acc', ?_, h5, fun q => ?_⟩
          · show (match accumUsage acc items with
                  | Except.ok a => combineGo a rest
                  | Except.error e => Except.error e) = Except.ok acc'
            rw [h1]
            exact h4
          · rw [h6 q, h3 q]
            simp [outsSum, outUsageSum, hg]
            omega
        | bool b => simp [validOut, hg] at hv
        | num n => simp [validOut, hg] at hv
        | rat r => simp [validOut, hg] at hv
        | str s => simp [validOut, hg] at hv
        | list l => simp [validOut, hg] at hv

/-- The outputs of the spec's combine example: two usage-carrying entries
around a `None` entry. -/
def c6Example : List (Option Dict) :=
  [some [("token_usage", .dict [("total_tokens", .num 3)])],
   none,
   some [("token_usage", .dict [("total_tokens", .num 4)])]]

/-- C6: `_combine_llm_outputs` skips `None` entries, sums the token-usage
fields key-wise across the present entries (keys initialized on first
sight), and sets the model name to the configured one; in particular the
spec's three-entry example combines to a total-token count of 7 under the
configured model name. -/
theorem c6_combine_outputs (cfg : Config) (outs : List (Option Dict))
    (hall : outs.all validOut = true) :
    (∃ overall, combineLLMOutputs cfg outs =
        .ok [("token_usage", .dict overall),
             ("model_name", .str cfg.model_name)] ∧
      ∀ q, usageInt overall q = outsSum outs q) ∧
    combineLLMOutputs cfg c6Example =
      .ok [("token_usage", .dict [("total_tokens", .num 7)]),
           ("model_name", .str cfg.model_name)] := by
  constructor
  · obtain ⟨overall, h1, _, h3⟩ := combineGo_spec outs [] rfl hall
    refine ⟨overall, ?_, fun q => ?_⟩
    · unfold combineLLMOutputs
      rw [h1]
    · rw [h3 q]
      simp [usageInt, Dict.get?]
  · rfl

/-- C1: in the streaming branch of `_generate`, the folded result has a
single generation whose generation metadata is exactly the terminal chunk's,
and whenever that metadata is present the adapter backfills `llm_output` with
the terminal chunk's token usage and the configured model name. -/
theorem c1_stream_fold_backfill (cfg : Config) (frames : List Dict)
    (chunks : List GenChunk) (c : GenChunk) (res : ChatResult)
    (h1 : streamChunks .ai frames = .ok chunks)
    (h2 : chunks.getLast? = some c)
    (h3 : generateStreaming cfg frames = .ok res) :
    res.generations.map (fun g => g.generation_info) = [c.generation_info] ∧
    (∀ info, c.generation_info = some info →
      res.llm_output =
        some [("token_usage", Dict.pyGet info "token_usage"),
              ("model_name", .str cfg.model_name)]) := by
  cases chunks with
  | nil =>
    exact Option.noConfusion h2
  | cons c0 cs0 =>
    have hne : c0 :: cs0 ≠ [] := by simp
    have hlast : (c0 :: cs0).getLast hne = c := by
      have hq := List.getLast?_eq_getLast_of_ne_nil hne
      rw [h2] at hq
      injection hq with hq
      exact hq.symm
    have hfold : generateFromStream (c0 :: cs0) =
        Except.ok ⟨[⟨foldedMessage c0 cs0, c.generation_info⟩], none⟩ := by
      unfold generateFromStream
      rw [← hlast]
    cases hgi : c.generation_info with
    | some info =>
      have hval : generateStreaming cfg frames =
          Except.ok ⟨[⟨foldedMessage c0 cs0, some info⟩],
            some [("token_usage", Dict.pyGet info "token_usage"),
                  ("model_name", PVal.str cfg.model_name)]⟩ := by
        unfold generateStreaming
        rw [h1]
        show (match generateFromStream (c0 :: cs0) with
              | Except.error e => Except.error e
              | Except.ok r =>
                match r.generations.getLast? with
                | none => Except.error ZError.indexError
                | some fm =>
                  match fm.generation_info with
                  | some i =>
                      Except.ok (ChatResult.mk r.generations
                        (some [("token_usage", Dict.pyGet i "token_usage"),
                               ("model_name", PVal.str cfg.model_name)]))
                  | none => Except.ok r) = _
        rw [hfold, hgi]
        rfl
      rw [hval] at h3
      injection h3 with h3
      subst h3
      refine ⟨by simp, fun info2 h4 => ?_⟩
      injection h4 with h4
      subst h4
      rfl
    | none =>
      have hval : generateStreaming cfg frames =
          Except.ok ⟨[⟨foldedMessage c0 cs0, none⟩], none⟩ := by
        unfold generateStreaming
        rw [h1]
        show (match generateFromStream (c0 :: cs0) with
              | Except.error e => Except.error e
              | Except.ok r =>
                match r.generations.getLast? with
                | none => Except.error ZError.indexError
                | some fm =>
                  match fm.generation_info with
                  | some i =>
                      Except.ok (ChatResult.mk r.generations
                        (some [("token_usage", Dict.pyGet i "token_usage"),
                               ("model_name", PVal.str cfg.model_name)]))
                  | none => Except.ok r) = _
        rw [hfold, hgi]
        rfl
      rw [hval] at h3
      injection h3 with h3
      subst h3
      refine ⟨by simp, fun info2 h4 => ?_⟩
      exact Option.noConfusion h4

/-- The spec's streaming scenario: two plain content frames followed by a
terminal frame carrying `finish_reason="stop"` and a 42-token usage block. -/
def c1Frames : List Dict :=
  [[("choices", .list [.dict [("delta", .dict [("content", .str "He")])]])],
   [("choices", .list [.dict [("delta", .dict [("content", .str "llo")])]])],
   [("choices", .list [.dict [("delta", .dict [("content", .str "!")]),
                              ("finish_reason", .str "stop")]]),
    ("usage", .dict [("total_tokens", .num 42)])]]

/-- The terminal chunk's generation metadata over `c1Frames`. -/
def c1Info : Dict :=
  [("finish_reason", .str "stop"),
   ("token_usage", .dict [("total_tokens", .num 42)])]

/-- The chunks `_stream` emits over `c1Frames`. -/
def c1Chunks : List GenChunk :=
  [⟨.ai (.str "He") [], none⟩, ⟨.ai (.str "llo") [], none⟩,
   ⟨.ai (.str "!") [], some c1Info⟩]

/-- The folded and backfilled result of the streaming `_generate` branch
over `c1Frames` with the default model name. -/
def c1Result : ChatResult :=
  ⟨[⟨.ai (.str "Hello!") [], some c1Info⟩],
   some [("token_usage", .dict [("total_tokens", .num 42)]),
         ("model_name", .str "glm-4")]⟩

theorem c1_stream_fold_backfill_witness :
    streamChunks .ai c1Frames = .ok c1Chunks ∧
    c1Chunks.getLast? = some (⟨.ai (.str "!") [], some c1Info⟩ : GenChunk) ∧
    generateStreaming (Config.mk "glm-4" 0.95 0.7 none 1 false) c1Frames =
      .ok c1Result ∧
    Dict.get? c1Info "finish_reason" = some (.str "stop") ∧
    Dict.get? (c1Result.llm_output.getD []) "token_usage" =
      some (.dict [("total_tokens", .num 42)]) ∧
    c1Result.generations.map (fun g => g.generation_info) = [some c1Info] ∧
    c1Result.llm_output =
      some [("token_usage", Dict.pyGet c1Info "token_usage"),
            ("model_name", .str "glm-4")] :=
  ⟨rfl, rfl, rfl, rfl, rfl,
   (c1_stream_fold_backfill (Config.mk "glm-4" 0.95 0.7 none 1 false)
     c1Frames c1Chunks ⟨.ai (.str "!") [], some c1Info⟩ c1Result
     rfl rfl rfl).1,
   (c1_stream_fold_backfill (Config.mk "glm-4" 0.95 0.7 none 1 false)
     c1Frames c1Chunks ⟨.ai (.str "!") [], some c1Info⟩ c1Result
     rfl rfl rfl).2 c1Info rfl⟩

theorem c6_combine_outputs_witness :
    List.all c6Example validOut = true ∧
    combineLLMOutputs (Config.mk "glm-4" 0.95 0.7 none 1 false) c6Example =
      .ok [("token_usage", .dict [("total_tokens", .num 7)]),
           ("model_name", .str "glm-4")] :=
  ⟨rfl, (c6_combine_outputs (Config.mk "glm-4" 0.95 0.7 none 1 false)
    c6Example rfl).2⟩

/-- C3: for every message list and every non-`None` stop argument, the body
of `_create_message_dicts` fails with the `ValueError` "stop found in both
the input and default params" when the parameter dict it received from
`_default_params` already defines `"stop"`, and otherwise returns the
serialized messages with the stop sequence attached to the parameters. -/
theorem c3_stop_conflict_or_attach (params : Dict) (messages : List BaseMsg)
    (s : List String) :
    (Dict.member params "stop" = true →
      createMessageDictsWith params messages (some s) =
        .error (ZError.valueError
          "`stop` found in both the input and default params.")) ∧
    (Dict.member params "stop" = false →
      createMessageDictsWith params messages (some s) =
        .ok (messages.map convertMessageToDict,
             Dict.insert params "stop" (.list (s.map .str)))) := by
  constructor <;> intro h <;> simp [createMessageDictsWith, h]

theorem c3_stop_conflict_or_attach_witness :
    Dict.member [("stop", PVal.null)] "stop" = true ∧
    createMessageDictsWith [("stop", PVal.null)] [] (some ["A"]) =
      .error (ZError.valueError
        "`stop` found in both the input and default params.") ∧
    Dict.member [] "stop" = false ∧
    createMessageDictsWith [] [] (some ["A"]) =
      .ok (([] : List BaseMsg).map convertMessageToDict,
           Dict.insert [] "stop" (.list (["A"].map .str))) :=
  ⟨rfl, (c3_stop_conflict_or_attach [("stop", PVal.null)] [] ["A"]).1 rfl,
   rfl, (c3_stop_conflict_or_attach [] [] ["A"]).2 rfl⟩

/-- C4: for every response dict lacking a `"choices"` key,
`_create_chat_result` raises the `KeyError` for `"choices"` rather than
returning an empty `ChatResult`. -/
theorem c4_missing_choices (cfg : Config) (response : Dict)
    (h : Dict.member response "choices" = false) :
    createChatResult cfg response = .error (ZError.keyError "choices") := by
  have hg : Dict.get? response "choices" = none := by
    unfold Dict.member at h
    cases hq : Dict.get? response "choices" <;> simp [hq] at h ⊢
  unfold createChatResult
  rw [hg]
  rfl

/-- The `"stop"` entry of the parameter dict an outbound call would carry. -/
def outboundStopOf (r : Except ZError (List Dict × Dict)) : Option PVal :=
  match r with
  | .ok (_, p) => Dict.get? p "stop"
  | .error _ => none

/-- C2: for every `_generate` call with a stop list of length greater than
one (and no conflicting `"stop"` keyword argument), the outbound parameter
set carries exactly one stop value, the first element of the list. -/
theorem c2_stop_truncated_to_first (cfg : Config) (messages : List BaseMsg)
    (a b : String) (rest : List String) (stream : Option Bool) (kwargs : Dict)
    (hk : Dict.member kwargs "stop" = false) :
    (generateOutbound cfg messages (some (a :: b :: rest)) stream kwargs).isOk
      = true ∧
    outboundStopOf
        (generateOutbound cfg messages (some (a :: b :: rest)) stream kwargs)
      = some (.list [.str a]) := by
  have hstop : truncateStop (some (a :: b :: rest)) = some [a] := rfl
  have hmem := defaultParams_no_stop cfg
  have hcmd : createMessageDicts cfg messages (some [a]) =
      .ok (messages.map convertMessageToDict,
           Dict.insert (defaultParams cfg) "stop" (.list [.str a])) := by
    unfold createMessageDicts createMessageDictsWith
    simp [hmem]
  have hout : generateOutbound cfg messages (some (a :: b :: rest)) stream
      kwargs =
      .ok (messages.map convertMessageToDict,
        Dict.mergeRight
          (Dict.mergeRight
            (Dict.insert (defaultParams cfg) "stop" (.list [.str a]))
            (match stream with
             | some b => [("stream", .bool b)] | none => []))
          kwargs) := by
    unfold generateOutbound
    rw [hstop, hcmd]
    rfl
  refine ⟨by rw [hout]; rfl, ?_⟩
  rw [hout]
  rw [show ∀ d p, outboundStopOf (Except.ok (d, p)) = Dict.get? p "stop"
      from fun _ _ => rfl]
  rw [Dict.get_mergeRight_notin _ _ _ hk]
  cases stream with
  | none =>
      rw [Dict.mergeRight_nil, Dict.get_insert]
      simp
  | some sb =>
      rw [Dict.mergeRight_cons, Dict.mergeRight_nil, Dict.get_insert,
          Dict.get_insert]
      simp

theorem c2_stop_truncated_to_first_witness :
    Dict.member [] "stop" = false ∧
    (generateOutbound (Config.mk "glm-4" 0.95 0.7 none 1 false) []
        (some ["A", "B"]) none []).isOk = true ∧
    outboundStopOf (generateOutbound (Config.mk "glm-4" 0.95 0.7 none 1 false)
        [] (some ["A", "B"]) none []) = some (.list [.str "A"]) :=
  ⟨rfl, c2_stop_truncated_to_first (Config.mk "glm-4" 0.95 0.7 none 1 false)
    [] "A" "B" [] none [] rfl⟩

/-- The outcome of attempt `i + fuel + 1`-bounded retrying when every attempt
fails with a transient error: the error of the last allowed attempt. -/
theorem retryGo_all_errors {α : Type} (call : Nat → Except ProviderErr α)
    (es : Nat → ProviderErr) (hall : ∀ j, call j = .error (es j))
    (htrans : ∀ j, isTransient (es j) = true) :
    ∀ fuel i, retryGo call i fuel = .error (es (i + fuel)) := by
  intro fuel
  induction fuel with
  | zero =>
      intro i
      unfold retryGo
      rw [hall i]
      simp [htrans i]
  | succ n ih =>
      intro i
      unfold retryGo
      rw [hall i]
      simp only [htrans i, if_true]
      rw [ih (i + 1)]
      have harg : i + 1 + n = i + (n + 1) := by omega
      rw [harg]

/-- C9: a provider call that fails once with a recognized transient error and
then succeeds returns the successful result when `max_retries ≥ 1` and
surfaces the error when `max_retries = 0`; and when every attempt fails with
a transient error, exhausting the retries surfaces the last attempt's error
unchanged. -/
theorem c9_retry_policy {α : Type} (cfg : Config)
    (call : Nat → Except ProviderErr α) (e : ProviderErr) (v : α)
    (ht : isTransient e = true) (h0 : call 0 = .error e)
    (h1 : call 1 = .ok v) :
    (1 ≤ cfg.max_retries → completionWithRetry cfg call = .ok v) ∧
    (cfg.max_retries = 0 → completionWithRetry cfg call = .error e) ∧
    (∀ (call2 : Nat → Except ProviderErr α) (es : Nat → ProviderErr),
       (∀ j, call2 j = .error (es j)) → (∀ j, isTransient (es j) = true) →
       completionWithRetry cfg call2 = .error (es cfg.max_retries)) := by
  refine ⟨?_, ?_, ?_⟩
  · intro h
    obtain ⟨n, hn⟩ : ∃ n, cfg.max_retries = n + 1 :=
      ⟨cfg.max_retries - 1, by omega⟩
    unfold completionWithRetry
    rw [hn]
    unfold retryGo
    rw [h0]
    simp only [ht, if_true]
    unfold retryGo
    rw [h1]
  · intro h
    unfold completionWithRetry
    rw [h]
    unfold retryGo
    rw [h0]
    simp [ht]
  · intro call2 es hall htrans
    unfold completionWithRetry
    rw [retryGo_all_errors call2 es hall htrans cfg.max_retries 0,
        Nat.zero_add]

/-- A provider call that times out on its first attempt and succeeds on every
later one. -/
def retryCallExample : Nat → Except ProviderErr Nat :=
  fun i => if i = 0 then .error .apiTimeout else .ok 7

theorem c9_retry_policy_witness :
    isTransient .apiTimeout = true ∧
    retryCallExample 0 = .error .apiTimeout ∧
    retryCallExample 1 = .ok 7 ∧
    completionWithRetry (Config.mk "glm-4" 0.95 0.7 none 1 false)
      retryCallExample = .ok 7 ∧
    completionWithRetry (Config.mk "glm-4" 0.95 0.7 none 0 false)
      retryCallExample = .error .apiTimeout :=
  ⟨rfl, rfl, rfl,
   (c9_retry_policy (Config.mk "glm-4" 0.95 0.7 none 1 false)
     retryCallExample .apiTimeout 7 rfl rfl rfl).1 (by decide),
   ((c9_retry_policy (Config.mk "glm-4" 0.95 0.7 none 0 false)
     retryCallExample .apiTimeout 7 rfl rfl rfl).2).1 rfl⟩

theorem c4_missing_choices_witness :
    Dict.member [("usage", PVal.null)] "choices" = false ∧
    createChatResult (Config.mk "glm-4" 0.95 0.7 none 1 false)
        [("usage", PVal.null)] = .error (ZError.keyError "choices") :=
  ⟨rfl, c4_missing_choices (Config.mk "glm-4" 0.95 0.7 none 1 false)
    [("usage", PVal.null)] rfl⟩
